import Mathlib

/-!
Shallow embedding of the bitarb cryptocurrency arbitrage engine.

Go `float64` values are modelled as exact rationals, Go structs as Lean
structures, and the strategy's per-wakeup behaviour as pure functions.
The definitions follow the source functions `filterBook`, `calcNeededArb`,
`findBestBid`, `findBestAsk`, `findBestArb`, `fillOrKill`,
`calcNetPosition` and the decision branch of `considerTrade`.
-/

namespace Bitfx

/-- One order-book level: price and amount. -/
structure Level where
  price : ℚ
  amount : ℚ
deriving DecidableEq, Repr

/-- The accessor data of an `exchange.Exchange` used by the strategy,
together with its mutable `position`. -/
structure Exchange where
  id : ℕ
  priority : ℤ
  fee : ℚ
  maxPos : ℚ
  currencyCode : ℕ
  hasCryptoFee : Bool
  position : ℚ
deriving DecidableEq, Repr

/-- The strategy configuration (section `Sec` of the gcfg file). -/
structure Config where
  maxArb : ℚ
  minArb : ℚ
  fxPremium : ℚ
  minNetPos : ℚ
  minOrder : ℚ
  maxOrder : ℚ
deriving DecidableEq, Repr

/-- The `market` struct: venue handle, order price, amount, adjusted price.
The Go zero value has a nil exchange handle, modelled by `none`. -/
structure Market where
  exg : Option Exchange
  orderPrice : ℚ
  amount : ℚ
  adjPrice : ℚ
deriving DecidableEq, Repr

/-- The Go zero value of `market`. -/
def Market.zero : Market := { exg := none, orderPrice := 0, amount := 0, adjPrice := 0 }

/-- The `filteredBook` struct: filtered bid and ask plus source book time. -/
structure FilteredBook where
  bid : Market
  ask : Market
  time : ℚ
deriving DecidableEq, Repr

/-- An `exchange.Book`: venue, timestamp (seconds), bid and ask levels. -/
structure Book where
  exg : Exchange
  time : ℚ
  bids : List Level
  asks : List Level
deriving DecidableEq, Repr

/-- An `exchange.Order` status reply. -/
structure Order where
  filledAmount : ℚ
  status : String
deriving DecidableEq, Repr

/-- Largest finite float64, the initialisation of `bestAsk.adjPrice`. -/
def maxFloat64 : ℚ := 2 ^ 1024 - 2 ^ 971

/-- `calcNeededArb` from bitarb: arb needed for a trade given positions. -/
def calcNeededArb (cfg : Config) (buyExg sellExg : Exchange) : ℚ :=
  let center := (cfg.maxArb + cfg.minArb) / 2
  let halfDist := (cfg.maxArb - center) / 2
  let center' := if buyExg.currencyCode ≠ sellExg.currencyCode then center + cfg.fxPremium else center
  let buyExgPct := buyExg.position / buyExg.maxPos
  let sellExgPct := sellExg.position / sellExg.maxPos
  center' + buyExgPct * halfDist - sellExgPct * halfDist

/-- A venue with given currency code, max position and position; the other
fields are irrelevant to `calcNeededArb`. -/
def mkVenue (code : ℕ) (m p : ℚ) : Exchange :=
  { id := 0, priority := 0, fee := 0, maxPos := m, currencyCode := code,
    hasCryptoFee := false, position := p }

/-- The arb band `min_arb = -1`, `max_arb = 2` of the test vectors. -/
def cfgBand : Config :=
  { maxArb := 2, minArb := -1, fxPremium := 0, minNetPos := 0, minOrder := 0, maxOrder := 0 }

/-- The same band with `fx_premium = 0.01`. -/
def cfgBandFX : Config := { cfgBand with fxPremium := 1 / 100 }

/-- C1: for venues in the same currency with a common positive max position
`M`, `calcNeededArb` at positions `(p, q)` equals
`(max_arb + min_arb)/2 + (p/M)·h - (q/M)·h` with `h = (max_arb - min_arb)/4`;
with `min_arb = -1`, `max_arb = 2`, `M = 500` it returns `2` at
`(500, -500)`, `-1` at `(-500, 500)`, `1/2` at `(0, 0)`, `5/4` at
`(250, -250)` and `4/5` at `(100, -100)`. -/
theorem calcNeededArb_same_currency :
    (∀ (cfg : Config) (b s : Exchange), b.currencyCode = s.currencyCode →
      b.maxPos = s.maxPos → 0 < b.maxPos →
      calcNeededArb cfg b s =
        (cfg.maxArb + cfg.minArb) / 2
          + b.position / b.maxPos * ((cfg.maxArb - cfg.minArb) / 4)
          - s.position / s.maxPos * ((cfg.maxArb - cfg.minArb) / 4))
    ∧ calcNeededArb cfgBand (mkVenue 0 500 500) (mkVenue 0 500 (-500)) = 2
    ∧ calcNeededArb cfgBand (mkVenue 0 500 (-500)) (mkVenue 0 500 500) = -1
    ∧ calcNeededArb cfgBand (mkVenue 0 500 0) (mkVenue 0 500 0) = 1 / 2
    ∧ calcNeededArb cfgBand (mkVenue 0 500 250) (mkVenue 0 500 (-250)) = 5 / 4
    ∧ calcNeededArb cfgBand (mkVenue 0 500 100) (mkVenue 0 500 (-100)) = 4 / 5 := by
  refine ⟨?_, by norm_num [calcNeededArb, mkVenue, cfgBand],
    by norm_num [calcNeededArb, mkVenue, cfgBand],
    by norm_num [calcNeededArb, mkVenue, cfgBand],
    by norm_num [calcNeededArb, mkVenue, cfgBand],
    by norm_num [calcNeededArb, mkVenue, cfgBand]⟩
  intro cfg b s hcc _hM _hMpos
  have h : ¬(b.currencyCode ≠ s.currencyCode) := by simp [hcc]
  simp only [calcNeededArb, if_neg h]
  ring

/-- Witness for C1 at the concrete input `(250, -250)`. -/
theorem calcNeededArb_same_currency_w :
    calcNeededArb cfgBand (mkVenue 0 500 250) (mkVenue 0 500 (-250)) =
      (cfgBand.maxArb + cfgBand.minArb) / 2
        + (mkVenue 0 500 250).position / (mkVenue 0 500 250).maxPos
            * ((cfgBand.maxArb - cfgBand.minArb) / 4)
        - (mkVenue 0 500 (-250)).position / (mkVenue 0 500 (-250)).maxPos
            * ((cfgBand.maxArb - cfgBand.minArb) / 4) :=
  calcNeededArb_same_currency.1 cfgBand _ _ rfl rfl (by norm_num [mkVenue])

/-- C3 counterexample: with `min_arb = -1`, `max_arb = 2`,
`fx_premium = 0.01`, `M = 500` and crossed currencies, `calcNeededArb` at
positions `(0, 0)` returns `0.51`, not `0.01` (and not within `1e-6`). -/
theorem calcNeededArb_crossed_cex :
    calcNeededArb cfgBandFX (mkVenue 1 500 0) (mkVenue 0 500 0) = 51 / 100
      ∧ ¬(|(51 : ℚ) / 100 - 1 / 100| < 1 / 1000000) := by
  constructor
  · norm_num [calcNeededArb, mkVenue, cfgBandFX, cfgBand]
  · rw [show |(51 : ℚ) / 100 - 1 / 100| = 1 / 2 by rw [abs_of_nonneg] <;> norm_num]
    norm_num

/-- C3 amended: when the currency codes differ, `calcNeededArb` adds
`fx_premium` to the center `(max_arb + min_arb)/2` before combining with the
position terms (the half distance is computed from the unadjusted center);
with `min_arb = -1`, `max_arb = 2`, `fx_premium = 0.01`, `M = 500` it
returns `2.01` at `(500, -500)`, `0.51` at `(0, 0)` and `-0.24` at
`(-250, 250)`. -/
theorem calcNeededArb_crossed_currency :
    (∀ (cfg : Config) (b s : Exchange), b.currencyCode ≠ s.currencyCode →
      b.maxPos = s.maxPos → 0 < b.maxPos →
      calcNeededArb cfg b s =
        (cfg.maxArb + cfg.minArb) / 2 + cfg.fxPremium
          + b.position / b.maxPos * ((cfg.maxArb - cfg.minArb) / 4)
          - s.position / s.maxPos * ((cfg.maxArb - cfg.minArb) / 4))
    ∧ calcNeededArb cfgBandFX (mkVenue 1 500 500) (mkVenue 0 500 (-500)) = 201 / 100
    ∧ calcNeededArb cfgBandFX (mkVenue 1 500 0) (mkVenue 0 500 0) = 51 / 100
    ∧ calcNeededArb cfgBandFX (mkVenue 1 500 (-250)) (mkVenue 0 500 250) = -6 / 25 := by
  refine ⟨?_, by norm_num [calcNeededArb, mkVenue, cfgBandFX, cfgBand],
    by norm_num [calcNeededArb, mkVenue, cfgBandFX, cfgBand],
    by norm_num [calcNeededArb, mkVenue, cfgBandFX, cfgBand]⟩
  intro cfg b s hcc _hM _hMpos
  simp only [calcNeededArb, if_pos hcc]
  ring

/-- Witness for the amended C3 at the concrete input `(-250, 250)`. -/
theorem calcNeededArb_crossed_currency_w :
    calcNeededArb cfgBandFX (mkVenue 1 500 (-250)) (mkVenue 0 500 250) =
      (cfgBandFX.maxArb + cfgBandFX.minArb) / 2 + cfgBandFX.fxPremium
        + (mkVenue 1 500 (-250)).position / (mkVenue 1 500 (-250)).maxPos
            * ((cfgBandFX.maxArb - cfgBandFX.minArb) / 4)
        - (mkVenue 0 500 250).position / (mkVenue 0 500 250).maxPos
            * ((cfgBandFX.maxArb - cfgBandFX.minArb) / 4) :=
  calcNeededArb_crossed_currency.1 cfgBandFX _ _ (by norm_num [mkVenue]) rfl
    (by norm_num [mkVenue])

/-- The bid/ask aggregation loop of `filterBook`: walk levels, capping each
contribution at `MaxOrder - amount`, until the accumulated amount reaches
`MinOrder`, then build the `market`; `feeFactor` is `1 - fee` for bids and
`1 + fee` for asks. Falling off the end leaves the zero market. -/
def walk (cfg : Config) (exg : Exchange) (feeFactor fxPrice : ℚ) :
    List Level → ℚ → ℚ → Market
  | [], _, _ => Market.zero
  | l :: rest, amount, aggPrice =>
    let taken := min (cfg.maxOrder - amount) l.amount
    let aggPrice' := aggPrice + l.price * taken
    let amount' := amount + taken
    if cfg.minOrder ≤ amount' then
      { exg := some exg, orderPrice := l.price, amount := amount',
        adjPrice := aggPrice' / amount' * feeFactor / fxPrice }
    else
      walk cfg exg feeFactor fxPrice rest amount' aggPrice'

/-- `filterBook` from bitarb: filter a book down to one executable bid and
one executable ask, adjusted for fee and FX. -/
def filterBook (cfg : Config) (book : Book) (fxPrice : ℚ) : FilteredBook :=
  { time := book.time,
    bid := walk cfg book.exg (1 - book.exg.fee) fxPrice book.bids 0 0,
    ask := walk cfg book.exg (1 + book.exg.fee) fxPrice book.asks 0 0 }

/-- The trace of the walking loop: after each level, the level's price, the
accumulated capped amount, and the accumulated cost. -/
def walkStates (cfg : Config) : List Level → ℚ → ℚ → List (ℚ × ℚ × ℚ)
  | [], _, _ => []
  | l :: rest, amount, aggPrice =>
    let taken := min (cfg.maxOrder - amount) l.amount
    (l.price, amount + taken, aggPrice + l.price * taken) ::
      walkStates cfg rest (amount + taken) (aggPrice + l.price * taken)

/-- The capped `take` values of the walking loop, paired with their prices. -/
def takesFrom (cfg : Config) : List Level → ℚ → List (ℚ × ℚ)
  | [], _ => []
  | l :: rest, amount =>
    let taken := min (cfg.maxOrder - amount) l.amount
    (l.price, taken) :: takesFrom cfg rest (amount + taken)

/-- The `market` built by `filterBook` when the walk stops in state `s`. -/
def walkMarket (exg : Exchange) (feeFactor fxPrice : ℚ) (s : ℚ × ℚ × ℚ) : Market :=
  { exg := some exg, orderPrice := s.1, amount := s.2.1,
    adjPrice := s.2.2 / s.2.1 * feeFactor / fxPrice }

lemma foldl_preserve {α β : Type*} (P : β → Prop) (f : β → α → β) :
    ∀ (l : List α) (b : β), P b → (∀ b' a, a ∈ l → P b' → P (f b' a)) →
      P (l.foldl f b) := by
  intro l
  induction l with
  | nil => intro b hb _; exact hb
  | cons a l ih =>
    intro b hb hstep
    exact ih (f b a) (hstep b a (List.mem_cons_self a l) hb)
      (fun b' x hx hb' => hstep b' x (List.mem_cons_of_mem a hx) hb')

lemma walk_eq_find (cfg : Config) (e : Exchange) (ff fx : ℚ) :
    ∀ (ls : List Level) (a c : ℚ),
      walk cfg e ff fx ls a c =
        match (walkStates cfg ls a c).find? (fun s => decide (cfg.minOrder ≤ s.2.1)) with
        | none => Market.zero
        | some s => walkMarket e ff fx s := by
  intro ls
  induction ls with
  | nil => intro a c; rfl
  | cons l rest ih =>
    intro a c
    by_cases h : cfg.minOrder ≤ a + min (cfg.maxOrder - a) l.amount
    · simp only [walk, walkStates]
      rw [List.find?_cons_of_pos _ (by simpa using h), if_pos h]
      rfl
    · simp only [walk, walkStates]
      rw [List.find?_cons_of_neg _ (by simpa using h), if_neg h]
      exact ih _ _

lemma walkStates_length (cfg : Config) :
    ∀ (ls : List Level) (a c : ℚ), (walkStates cfg ls a c).length = ls.length := by
  intro ls
  induction ls with
  | nil => intro a c; rfl
  | cons l rest ih => intro a c; simp [walkStates, ih]

lemma walkStates_get (cfg : Config) :
    ∀ (ls : List Level) (a c : ℚ) (n : ℕ) (hn : n < ls.length)
      (hn2 : n < (walkStates cfg ls a c).length),
      (walkStates cfg ls a c).get ⟨n, hn2⟩ =
        ((ls.get ⟨n, hn⟩).price,
         a + (((takesFrom cfg ls a).map Prod.snd).take (n + 1)).sum,
         c + (((takesFrom cfg ls a).map (fun pt => pt.1 * pt.2)).take (n + 1)).sum) := by
  intro ls
  induction ls with
  | nil => intro a c n hn hn2; simp at hn
  | cons l rest ih =>
    intro a c n hn hn2
    cases n with
    | zero => simp [walkStates, takesFrom]
    | succ n =>
      have hn' : n < rest.length := by simpa using hn
      have hn2' : n < (walkStates cfg rest (a + min (cfg.maxOrder - a) l.amount)
          (c + l.price * min (cfg.maxOrder - a) l.amount)).length := by
        rw [walkStates_length]; exact hn'
      have := ih (a + min (cfg.maxOrder - a) l.amount)
        (c + l.price * min (cfg.maxOrder - a) l.amount) n hn' hn2'
      simp only [walkStates, takesFrom, List.get_cons_succ]
      rw [this]
      simp [List.take_succ_cons, add_assoc]

lemma walkStates_amount_le (cfg : Config) :
    ∀ (ls : List Level) (a c : ℚ), (∀ l ∈ ls, 0 ≤ l.amount) → a ≤ cfg.maxOrder →
      ∀ s ∈ walkStates cfg ls a c, s.2.1 ≤ cfg.maxOrder := by
  intro ls
  induction ls with
  | nil => intro a c _ _ s hs; simp [walkStates] at hs
  | cons l rest ih =>
    intro a c hamt ha s hs
    have hstep : a + min (cfg.maxOrder - a) l.amount ≤ cfg.maxOrder := by
      have := min_le_left (cfg.maxOrder - a) l.amount
      linarith
    simp only [walkStates, List.mem_cons] at hs
    rcases hs with h | h
    · rw [h]; exact hstep
    · exact ih _ _ (fun x hx => hamt x (List.mem_cons_of_mem l hx)) hstep s h

lemma find?_first {α : Type*} (p : α → Bool) :
    ∀ (l : List α) (x : α), l.find? p = some x →
      ∃ (n : ℕ) (hn : n < l.length), l.get ⟨n, hn⟩ = x ∧ p x = true ∧
        ∀ (m : ℕ) (hm : m < n), p (l.get ⟨m, hm.trans hn⟩) = false := by
  intro l
  induction l with
  | nil => intro x hx; simp [List.find?] at hx
  | cons a l ih =>
    intro x hx
    cases hpa : p a with
    | true =>
      rw [List.find?_cons_of_pos _ hpa, Option.some_inj] at hx
      subst hx
      exact ⟨0, by simp, rfl, hpa, fun m hm => absurd hm (Nat.not_lt_zero m)⟩
    | false =>
      rw [List.find?_cons_of_neg _ (by simp [hpa])] at hx
      obtain ⟨n, hn, hg, hp, hmin⟩ := ih x hx
      refine ⟨n + 1, by simpa using Nat.succ_lt_succ hn, by simpa using hg, hp, ?_⟩
      intro m hm
      cases m with
      | zero => simpa using hpa
      | succ m => simpa using hmin m (Nat.lt_of_succ_lt_succ hm)

lemma walk_props (cfg : Config) (e : Exchange) (ff fx : ℚ) (ls : List Level)
    (hamt : ∀ l ∈ ls, 0 ≤ l.amount) (hmax : 0 ≤ cfg.maxOrder) :
    (walk cfg e ff fx ls 0 0 =
      match (walkStates cfg ls 0 0).find? (fun s => decide (cfg.minOrder ≤ s.2.1)) with
      | none => Market.zero
      | some s => walkMarket e ff fx s)
    ∧ (∀ s, (walkStates cfg ls 0 0).find? (fun s => decide (cfg.minOrder ≤ s.2.1)) = some s →
        cfg.minOrder ≤ s.2.1 ∧ s.2.1 ≤ cfg.maxOrder ∧
        ∃ (n : ℕ) (hn : n < ls.length),
          s.1 = (ls.get ⟨n, hn⟩).price
          ∧ s.2.1 = (((takesFrom cfg ls 0).map Prod.snd).take (n + 1)).sum
          ∧ s.2.2 = (((takesFrom cfg ls 0).map (fun pt => pt.1 * pt.2)).take (n + 1)).sum
          ∧ ∀ m, m < n →
              (((takesFrom cfg ls 0).map Prod.snd).take (m + 1)).sum < cfg.minOrder) := by
  refine ⟨walk_eq_find cfg e ff fx ls 0 0, ?_⟩
  intro s hfind
  obtain ⟨n, hn2, hget, hps, hmins⟩ := find?_first _ _ _ hfind
  have hn : n < ls.length := by rw [← walkStates_length cfg ls 0 0]; exact hn2
  have hcomp := walkStates_get cfg ls 0 0 n hn hn2
  rw [hget] at hcomp
  have hle : cfg.minOrder ≤ s.2.1 := of_decide_eq_true hps
  have hmem : s ∈ walkStates cfg ls 0 0 := hget ▸ List.get_mem _ n hn2
  refine ⟨hle, walkStates_amount_le cfg ls 0 0 hamt hmax s hmem, n, hn, ?_, ?_, ?_, ?_⟩
  · rw [hcomp]
  · rw [hcomp]; simp
  · rw [hcomp]; simp
  · intro m hm
    have hm2 : m < (walkStates cfg ls 0 0).length := hm.trans hn2
    have hpm := hmins m hm
    have hcm := walkStates_get cfg ls 0 0 m (hm.trans hn) hm2
    rw [hcm] at hpm
    have := of_decide_eq_false hpm
    simpa using lt_of_not_le this

/-- C2: for a book with monotone levels and non-negative amounts, and
positive `fx_price`, `min_order`, `max_order`: the filtered bid equals the
market built from the first walk state whose capped prefix amount reaches
`min_order` (and is the zero market when no prefix does); for that state,
`min_order ≤ amount ≤ max_order`, the order price is the price of the last
level walked, the amount is the capped prefix sum of takes, the cost is the
corresponding price-weighted sum, so `adj_price` is the amount-weighted
average times `1 - fee` divided by `fx_price` exactly once; symmetrically
for asks with `1 + fee`. -/
theorem filterBook_spec (cfg : Config) (book : Book) (fx : ℚ)
    (_hbids : List.Chain' (fun x y : Level => y.price ≤ x.price) book.bids)
    (_hasks : List.Chain' (fun x y : Level => x.price ≤ y.price) book.asks)
    (hbamt : ∀ l ∈ book.bids, 0 ≤ l.amount)
    (haamt : ∀ l ∈ book.asks, 0 ≤ l.amount)
    (_hfx : 0 < fx) (_hmin : 0 < cfg.minOrder) (hmax : 0 < cfg.maxOrder) :
    ((filterBook cfg book fx).bid =
      match (walkStates cfg book.bids 0 0).find? (fun s => decide (cfg.minOrder ≤ s.2.1)) with
      | none => Market.zero
      | some s => walkMarket book.exg (1 - book.exg.fee) fx s)
    ∧ (∀ s, (walkStates cfg book.bids 0 0).find?
          (fun s => decide (cfg.minOrder ≤ s.2.1)) = some s →
        cfg.minOrder ≤ s.2.1 ∧ s.2.1 ≤ cfg.maxOrder ∧
        ∃ (n : ℕ) (hn : n < book.bids.length),
          s.1 = (book.bids.get ⟨n, hn⟩).price
          ∧ s.2.1 = (((takesFrom cfg book.bids 0).map Prod.snd).take (n + 1)).sum
          ∧ s.2.2 = (((takesFrom cfg book.bids 0).map
              (fun pt => pt.1 * pt.2)).take (n + 1)).sum
          ∧ ∀ m, m < n →
              (((takesFrom cfg book.bids 0).map Prod.snd).take (m + 1)).sum < cfg.minOrder)
    ∧ ((filterBook cfg book fx).ask =
      match (walkStates cfg book.asks 0 0).find? (fun s => decide (cfg.minOrder ≤ s.2.1)) with
      | none => Market.zero
      | some s => walkMarket book.exg (1 + book.exg.fee) fx s)
    ∧ (∀ s, (walkStates cfg book.asks 0 0).find?
          (fun s => decide (cfg.minOrder ≤ s.2.1)) = some s →
        cfg.minOrder ≤ s.2.1 ∧ s.2.1 ≤ cfg.maxOrder ∧
        ∃ (n : ℕ) (hn : n < book.asks.length),
          s.1 = (book.asks.get ⟨n, hn⟩).price
          ∧ s.2.1 = (((takesFrom cfg book.asks 0).map Prod.snd).take (n + 1)).sum
          ∧ s.2.2 = (((takesFrom cfg book.asks 0).map
              (fun pt => pt.1 * pt.2)).take (n + 1)).sum
          ∧ ∀ m, m < n →
              (((takesFrom cfg book.asks 0).map Prod.snd).take (m + 1)).sum < cfg.minOrder) := by
  obtain ⟨hb1, hb2⟩ := walk_props cfg book.exg (1 - book.exg.fee) fx book.bids hbamt hmax.le
  obtain ⟨ha1, ha2⟩ := walk_props cfg book.exg (1 + book.exg.fee) fx book.asks haamt hmax.le
  exact ⟨hb1, hb2, ha1, ha2⟩

/-- A one-level test book on a fee-charging venue. -/
def venueW : Exchange :=
  { id := 7, priority := 1, fee := 1 / 10, maxPos := 100, currencyCode := 0,
    hasCryptoFee := false, position := 0 }

/-- Concrete book for the filter witness. -/
def bookW : Book :=
  { exg := venueW, time := 0, bids := [⟨10, 5⟩], asks := [⟨11, 5⟩] }

/-- Filter configuration for the witness: `min_order = 4`, `max_order = 5`. -/
def cfgW : Config :=
  { maxArb := 0, minArb := 0, fxPremium := 0, minNetPos := 0, minOrder := 4, maxOrder := 5 }

/-- Witness for C2 at a concrete book and `fx_price = 2`. -/
theorem filterBook_spec_w :
    (filterBook cfgW bookW 2).bid =
      match (walkStates cfgW bookW.bids 0 0).find?
          (fun s => decide (cfgW.minOrder ≤ s.2.1)) with
      | none => Market.zero
      | some s => walkMarket bookW.exg (1 - bookW.exg.fee) 2 s :=
  (filterBook_spec cfgW bookW 2 (by simp [bookW])
    (by simp [bookW])
    (by intro l hl; simp [bookW] at hl; rw [hl]; norm_num)
    (by intro l hl; simp [bookW] at hl; rw [hl]; norm_num)
    (by norm_num) (by norm_num [cfgW]) (by norm_num [cfgW])).1

/-- A non-base-currency venue for the FX-guard counterexample. -/
def venueN : Exchange :=
  { id := 3, priority := 1, fee := 1 / 10, maxPos := 100, currencyCode := 1,
    hasCryptoFee := false, position := 0 }

/-- A book on the non-base venue with a single deep bid level. -/
def bookN : Book := { exg := venueN, time := 0, bids := [⟨10, 5⟩], asks := [] }

/-- C9 counterexample: with a zero FX price on file, `filterBook` still
produces a present bid side for a non-base-currency venue's book; no
staleness or zero guard exists in the filter. -/
theorem filterBook_fx_cex :
    venueN.currencyCode ≠ 0 ∧ (filterBook cfgW bookN 0).bid.exg = some venueN := by
  constructor
  · norm_num [venueN]
  · norm_num [filterBook, walk, bookN, cfgW]

lemma walk_exg_indep (cfg : Config) (e : Exchange) (ff fx ff' fx' : ℚ) :
    ∀ (ls : List Level) (a c : ℚ),
      (walk cfg e ff fx ls a c).exg = (walk cfg e ff' fx' ls a c).exg := by
  intro ls
  induction ls with
  | nil => intro a c; rfl
  | cons l rest ih =>
    intro a c
    simp only [walk]
    by_cases h : cfg.minOrder ≤ a + min (cfg.maxOrder - a) l.amount
    · rw [if_pos h, if_pos h]
    · rw [if_neg h, if_neg h]; exact ih _ _

/-- C9 amended: `filterBook` applies no FX zero/staleness guard: whether a
side is present (and which venue handle it carries) depends only on the
book levels and the configured order sizes, not on the FX price passed in
(zero included) nor on the book's timestamp. -/
theorem filterBook_no_fx_guard :
    ∀ (cfg : Config) (e : Exchange) (t t' : ℚ) (bids asks : List Level) (fx fx' : ℚ),
      (filterBook cfg { exg := e, time := t, bids := bids, asks := asks } fx).bid.exg
        = (filterBook cfg { exg := e, time := t', bids := bids, asks := asks } fx').bid.exg
      ∧ (filterBook cfg { exg := e, time := t, bids := bids, asks := asks } fx).ask.exg
        = (filterBook cfg { exg := e, time := t', bids := bids, asks := asks } fx').ask.exg := by
  intro cfg e t t' bids asks fx fx'
  exact ⟨walk_exg_indep cfg e _ fx _ fx' bids 0 0,
    walk_exg_indep cfg e _ fx _ fx' asks 0 0⟩

/-- The tail of `fillOrKill`: on a buy the observed filled amount is reduced
by the fee when the venue charges crypto fees; the position is adjusted and
the (possibly reduced) amount is what goes on the fill channel. Returns the
updated venue and the reported amount. -/
def fillOrKillUpdate (exg : Exchange) (action : String) (filledAmount : ℚ) :
    Exchange × ℚ :=
  if action = "buy" then
    let f := if exg.hasCryptoFee then filledAmount * (1 - exg.fee) else filledAmount
    ({ exg with position := exg.position + f }, f)
  else
    ({ exg with position := exg.position - filledAmount }, filledAmount)

/-- The status-polling loop of `fillOrKill`, driven by the successive
`GetOrderStatus` replies: a `live` reply triggers a cancel and a re-poll,
an empty status re-polls without cancelling, `dead` stops. Returns the
final order and the number of cancels issued, or `none` when the replies
run out before any `dead`. -/
def pollLoop : List Order → ℕ → Option (Order × ℕ)
  | [], _ => none
  | o :: rest, cancels =>
    if o.status = "live" then pollLoop rest (cancels + 1)
    else if o.status = "dead" then some (o, cancels)
    else pollLoop rest cancels

/-- `fillOrKill` once a nonzero order id is obtained: poll to completion,
update the position, report the fill; also returns the cancel count. -/
def fillOrKill (exg : Exchange) (action : String) (responses : List Order) :
    Option (Exchange × ℚ × ℕ) :=
  match pollLoop responses 0 with
  | none => none
  | some (o, cancels) =>
    some ((fillOrKillUpdate exg action o.filledAmount).1,
      (fillOrKillUpdate exg action o.filledAmount).2, cancels)

/-- One observed fill: target venue id, action, observed filled amount. -/
structure Fill where
  venueId : ℕ
  action : String
  filled : ℚ
deriving DecidableEq, Repr

/-- The signed position change a fill causes at a venue. -/
def signedFill (e : Exchange) (fl : Fill) : ℚ :=
  if fl.action = "buy" then (if e.hasCryptoFee then fl.filled * (1 - e.fee) else fl.filled)
  else -fl.filled

/-- Apply one fill to the venue it targets. -/
def applyFill (vs : List Exchange) (fl : Fill) : List Exchange :=
  vs.map fun e => if e.id = fl.venueId then (fillOrKillUpdate e fl.action fl.filled).1 else e

/-- Apply a sequence of fills in order. -/
def applyFills (vs : List Exchange) : List Fill → List Exchange
  | [] => vs
  | fl :: fills => applyFills (applyFill vs fl) fills

/-- `calcNetPosition` from bitarb: total position across exchanges. -/
def calcNetPosition (vs : List Exchange) : ℚ :=
  vs.foldl (fun n e => n + e.position) 0

lemma fillOrKillUpdate_fst (e : Exchange) (a : String) (f : ℚ) :
    (fillOrKillUpdate e a f).1 =
      { e with position := e.position +
          (if a = "buy" then (if e.hasCryptoFee then f * (1 - e.fee) else f) else -f) } := by
  by_cases h : a = "buy"
  · simp [fillOrKillUpdate, h]
  · simp [fillOrKillUpdate, h, sub_eq_add_neg]

lemma signedFill_update (e : Exchange) (p : ℚ) :
    signedFill { e with position := p } = signedFill e := rfl

lemma applyFill_length (vs : List Exchange) (fl : Fill) :
    (applyFill vs fl).length = vs.length := by
  simp [applyFill]

lemma applyFills_length :
    ∀ (fills : List Fill) (vs : List Exchange),
      (applyFills vs fills).length = vs.length := by
  intro fills
  induction fills with
  | nil => intro vs; rfl
  | cons fl fills ih => intro vs; rw [applyFills, ih, applyFill_length]

lemma applyFill_get (vs : List Exchange) (fl : Fill) (i : ℕ) (hi : i < vs.length)
    (hi2 : i < (applyFill vs fl).length) :
    (applyFill vs fl).get ⟨i, hi2⟩ =
      if (vs.get ⟨i, hi⟩).id = fl.venueId
      then (fillOrKillUpdate (vs.get ⟨i, hi⟩) fl.action fl.filled).1
      else vs.get ⟨i, hi⟩ := by
  simp [applyFill]

lemma applyFills_get :
    ∀ (fills : List Fill) (vs : List Exchange) (i : ℕ) (hi : i < vs.length)
      (hi2 : i < (applyFills vs fills).length),
      (applyFills vs fills).get ⟨i, hi2⟩ =
        { vs.get ⟨i, hi⟩ with position := (vs.get ⟨i, hi⟩).position +
            ((fills.filter fun fl => decide (fl.venueId = (vs.get ⟨i, hi⟩).id)).map
              (signedFill (vs.get ⟨i, hi⟩))).sum } := by
  intro fills
  induction fills with
  | nil =>
    intro vs i hi hi2
    simp [applyFills]
  | cons fl fills ih =>
    intro vs i hi hi2
    have hi' : i < (applyFill vs fl).length := by rw [applyFill_length]; exact hi
    have hcast : i < (applyFills (applyFill vs fl) fills).length := by
      rw [applyFills_length, applyFill_length]; exact hi
    have e1 : (applyFills vs (fl :: fills)).get ⟨i, hi2⟩ =
        (applyFills (applyFill vs fl) fills).get ⟨i, hcast⟩ := rfl
    rw [e1, ih (applyFill vs fl) i hi' hcast, applyFill_get vs fl i hi hi']
    by_cases h : (vs.get ⟨i, hi⟩).id = fl.venueId
    · rw [if_pos h, fillOrKillUpdate_fst]
      have hfilter : (fl :: fills).filter
            (fun fl' => decide (fl'.venueId = (vs.get ⟨i, hi⟩).id)) =
          fl :: fills.filter (fun fl' => decide (fl'.venueId = (vs.get ⟨i, hi⟩).id)) :=
        List.filter_cons_of_pos (by simp [h.symm])
      simp only [signedFill_update, hfilter, List.map_cons, List.sum_cons, signedFill]
      congr 1
      ring
    · rw [if_neg h]
      have hfilter : (fl :: fills).filter
            (fun fl' => decide (fl'.venueId = (vs.get ⟨i, hi⟩).id)) =
          fills.filter (fun fl' => decide (fl'.venueId = (vs.get ⟨i, hi⟩).id)) :=
        List.filter_cons_of_neg (by simp; exact fun hc => h hc.symm)
      rw [hfilter]

lemma calcNetPosition_eq :
    ∀ (vs : List Exchange) (n : ℚ),
      vs.foldl (fun m e => m + e.position) n = n + (vs.map Exchange.position).sum := by
  intro vs
  induction vs with
  | nil => intro n; simp
  | cons e vs ih => intro n; simp [List.foldl_cons, ih, add_assoc]

/-- C4: a buy on a crypto-fee venue moves the position by `f·(1 - fee)`, a
buy elsewhere by `f`, a sell by `-f`; after any sequence of fills each
venue's position is its initial position plus the sum of its signed fills,
and `calcNetPosition` is the sum of positions across venues. -/
theorem position_bookkeeping :
    (∀ (e : Exchange) (f : ℚ),
      (fillOrKillUpdate e "buy" f).1.position
          = e.position + (if e.hasCryptoFee then f * (1 - e.fee) else f)
      ∧ (fillOrKillUpdate e "sell" f).1.position = e.position - f)
    ∧ (∀ (vs : List Exchange) (fills : List Fill) (i : ℕ) (hi : i < vs.length)
        (hi2 : i < (applyFills vs fills).length),
      ((applyFills vs fills).get ⟨i, hi2⟩).position
        = (vs.get ⟨i, hi⟩).position
          + ((fills.filter fun fl => decide (fl.venueId = (vs.get ⟨i, hi⟩).id)).map
              (signedFill (vs.get ⟨i, hi⟩))).sum)
    ∧ (∀ vs : List Exchange, calcNetPosition vs = (vs.map Exchange.position).sum) := by
  refine ⟨?_, ?_, ?_⟩
  · intro e f
    constructor
    · rw [fillOrKillUpdate_fst]; simp
    · rw [fillOrKillUpdate_fst]; simp [sub_eq_add_neg]
  · intro vs fills i hi hi2
    rw [applyFills_get fills vs i hi hi2]
  · intro vs
    rw [calcNetPosition, calcNetPosition_eq, zero_add]

/-- The strategy's venue list for the bookkeeping witness. -/
def venuesW : List Exchange := [venueW]

/-- One sell fill of 1 unit at `venueW` (id 7). -/
def fillsW : List Fill := [⟨7, "sell", 1⟩]

/-- Witness for C4: one sell at a single venue. -/
theorem position_bookkeeping_w :
    ((applyFills venuesW fillsW).get ⟨0, by
        rw [applyFills_length]; norm_num [venuesW]⟩).position
      = (venuesW.get ⟨0, by norm_num [venuesW]⟩).position
        + ((fillsW.filter fun fl =>
            decide (fl.venueId = (venuesW.get ⟨0, by norm_num [venuesW]⟩).id)).map
              (signedFill (venuesW.get ⟨0, by norm_num [venuesW]⟩))).sum :=
  position_bookkeeping.2.1 venuesW fillsW 0 (by norm_num [venuesW])
    (by rw [applyFills_length]; norm_num [venuesW])

lemma pollLoop_append_dead :
    ∀ (rs : List Order) (n : ℕ) (f : ℚ) (tail : List Order),
      (∀ o ∈ rs, o.status = "live" ∨ o.status = "") →
      pollLoop (rs ++ (⟨f, "dead"⟩ : Order) :: tail) n =
        some (⟨f, "dead"⟩, n + (rs.filter fun o => decide (o.status = "live")).length) := by
  intro rs
  induction rs with
  | nil =>
    intro n f tail _
    simp [pollLoop]
  | cons o rs ih =>
    intro n f tail hst
    have hrest : ∀ o' ∈ rs, o'.status = "live" ∨ o'.status = "" :=
      fun o' ho' => hst o' (List.mem_cons_of_mem o ho')
    rcases hst o (List.mem_cons_self o rs) with h | h
    · rw [List.cons_append, pollLoop, if_pos h, ih (n + 1) f tail hrest,
        List.filter_cons_of_pos (by simp [h])]
      simp [Nat.add_assoc, Nat.add_comm 1]
    · rw [List.cons_append, pollLoop, if_neg (by simp [h]), if_neg (by simp [h]),
        ih n f tail hrest, List.filter_cons_of_neg (by simp [h])]

/-- A crypto-fee venue: buys are charged `fee` in the crypto asset. -/
def venueCF : Exchange :=
  { id := 9, priority := 1, fee := 1 / 500, maxPos := 100, currencyCode := 0,
    hasCryptoFee := true, position := 0 }

/-- C5 counterexample: a buy on a crypto-fee venue whose only status reply is
`dead` with filled amount `1` reports `0.998` on the fill channel, not
`|1| = 1`. -/
theorem fillOrKill_report_cex :
    fillOrKill venueCF "buy" [⟨1, "dead"⟩] =
      some ({ venueCF with position := 499 / 500 }, 499 / 500, 0)
    ∧ (499 : ℚ) / 500 ≠ |(1 : ℚ)| := by
  constructor
  · have h1 : pollLoop [(⟨1, "dead"⟩ : Order)] 0 = some (⟨1, "dead"⟩, 0) := by
      rw [pollLoop, if_neg (by decide), if_pos rfl]
    rw [fillOrKill, h1]
    norm_num [fillOrKillUpdate, venueCF]
  · rw [abs_one]; norm_num

/-- C5 amended: for status replies made of `live` and empty results followed
by a `dead` result with filled amount `f ≥ 0`, `fillOrKill` terminates at
the first `dead`, cancels exactly once per `live` reply (none for empty
ones), and reports `|f|` on the fill channel — except that a buy on a
crypto-fee venue reports `|f|·(1 - fee)`. -/
theorem fillOrKill_loop_spec :
    ∀ (e : Exchange) (action : String) (rs tail : List Order) (f : ℚ),
      (∀ o ∈ rs, o.status = "live" ∨ o.status = "") → 0 ≤ f →
      fillOrKill e action (rs ++ (⟨f, "dead"⟩ : Order) :: tail) =
        some ((fillOrKillUpdate e action f).1,
          (if action = "buy" ∧ e.hasCryptoFee = true then |f| * (1 - e.fee) else |f|),
          (rs.filter fun o => decide (o.status = "live")).length) := by
  intro e action rs tail f hst hf
  rw [fillOrKill, pollLoop_append_dead rs 0 f tail hst]
  have habs : |f| = f := abs_of_nonneg hf
  by_cases hb : action = "buy"
  · by_cases hc : e.hasCryptoFee = true
    · simp [fillOrKillUpdate, hb, hc, habs]
    · simp [fillOrKillUpdate, hb, hc, habs]
  · simp [fillOrKillUpdate, hb, habs]

/-- Witness for the amended C5: one `live`, one empty, then `dead` with
`f = 2` on a venue without crypto fees; one cancel, reported fill `|2|`. -/
theorem fillOrKill_loop_spec_w :
    fillOrKill venueW "sell"
        (([⟨0, "live"⟩, ⟨0, ""⟩] : List Order) ++ (⟨2, "dead"⟩ : Order) :: []) =
      some ((fillOrKillUpdate venueW "sell" 2).1,
        (if "sell" = "buy" ∧ venueW.hasCryptoFee = true then |(2 : ℚ)| * (1 - venueW.fee)
          else |(2 : ℚ)|),
        (([⟨0, "live"⟩, ⟨0, ""⟩] : List Order).filter
          fun o => decide (o.status = "live")).length) :=
  fillOrKill_loop_spec venueW "sell" [⟨0, "live"⟩, ⟨0, ""⟩] [] 2
    (by
      intro o ho
      simp only [List.mem_cons, List.not_mem_nil, or_false] at ho
      rcases ho with rfl | rfl
      · left; rfl
      · right; rfl)
    (by norm_num)

/-- One iteration of the `findBestBid` loop: a venue that is not already
max short (`min_order ≤ position + max_position`) and whose bid beats the
current best replaces it, with the amount capped by the sell capacity. -/
def bestBidStep (cfg : Config) (bestBid : Market) (p : Exchange × FilteredBook) : Market :=
  if cfg.minOrder ≤ p.1.position + p.1.maxPos then
    if bestBid.adjPrice < p.2.bid.adjPrice then
      { p.2.bid with amount := min p.2.bid.amount (p.1.position + p.1.maxPos) }
    else bestBid
  else bestBid

/-- `findBestBid` from bitarb. -/
def findBestBid (cfg : Config) (markets : List (Exchange × FilteredBook)) : Market :=
  markets.foldl (bestBidStep cfg) Market.zero

/-- One iteration of the `findBestAsk` loop: a venue that is not already
max long and whose ask undercuts the current best replaces it, with the
amount capped by the buy capacity. -/
def bestAskStep (cfg : Config) (bestAsk : Market) (p : Exchange × FilteredBook) : Market :=
  if cfg.minOrder ≤ p.1.maxPos - p.1.position then
    if p.2.ask.adjPrice < bestAsk.adjPrice then
      { p.2.ask with amount := min p.2.ask.amount (p.1.maxPos - p.1.position) }
    else bestAsk
  else bestAsk

/-- `findBestAsk` from bitarb; the initial adjusted price is `MaxFloat64`. -/
def findBestAsk (cfg : Config) (markets : List (Exchange × FilteredBook)) : Market :=
  markets.foldl (bestAskStep cfg) { Market.zero with adjPrice := maxFloat64 }

/-- Accumulator of the `findBestArb` loops. -/
structure ArbAcc where
  bestBid : Market
  bestAsk : Market
  bestOpp : ℚ
  found : Bool
deriving DecidableEq, Repr

/-- Inner loop body of `findBestArb`: compare the outer venue's bid with
this venue's ask, net of the needed arb, and keep the better opportunity. -/
def arbInner (cfg : Config) (p1 : Exchange × FilteredBook) (acc : ArbAcc)
    (p2 : Exchange × FilteredBook) : ArbAcc :=
  if cfg.minOrder ≤ p2.1.maxPos - p2.1.position then
    if acc.bestOpp ≤ p1.2.bid.adjPrice - p2.2.ask.adjPrice - calcNeededArb cfg p2.1 p1.1 then
      { bestBid := { p1.2.bid with amount := min p1.2.bid.amount (p1.1.position + p1.1.maxPos) },
        bestAsk := { p2.2.ask with amount := min p2.2.ask.amount (p2.1.maxPos - p2.1.position) },
        bestOpp := p1.2.bid.adjPrice - p2.2.ask.adjPrice - calcNeededArb cfg p2.1 p1.1,
        found := true }
    else acc
  else acc

/-- Outer loop body of `findBestArb`: venues already max short sell nothing. -/
def arbStep (cfg : Config) (markets : List (Exchange × FilteredBook)) (acc : ArbAcc)
    (p1 : Exchange × FilteredBook) : ArbAcc :=
  if cfg.minOrder ≤ p1.1.position + p1.1.maxPos then
    markets.foldl (arbInner cfg p1) acc
  else acc

/-- `findBestArb` from bitarb: best bid, best ask and whether an
opportunity (`opp ≥ bestOpp`, starting from `0`) was found. -/
def findBestArb (cfg : Config) (markets : List (Exchange × FilteredBook)) :
    Market × Market × Bool :=
  let acc := markets.foldl (arbStep cfg markets) ⟨Market.zero, Market.zero, 0, false⟩
  (acc.bestBid, acc.bestAsk, acc.found)

/-- The false-repeat filter of `considerTrade`: trade unless the arb and the
amount both sit within `1e-6` of the last trade, except when the amount is
within `1e-6` of `MaxOrder`. -/
def shouldFire (cfg : Config) (lastArb lastAmount arb amount : ℚ) : Bool :=
  decide ((1 : ℚ) / 1000000 < |arb - lastArb|)
    || decide ((1 : ℚ) / 1000000 < |amount - lastAmount|)
    || decide (|amount - cfg.maxOrder| < 1 / 1000000)

/-- What one wake-up of `considerTrade` decides to do. -/
inductive Decision
  | exitSell (m : Market) (amount : ℚ)
  | exitBuy (m : Market) (amount : ℚ)
  | arbTrade (bid ask : Market) (amount arb : ℚ)
  | skip
  | idle
deriving DecidableEq, Repr

/-- Result of one wake-up: the decision and the updated repeat trackers. -/
structure StepResult where
  decision : Decision
  lastArb : ℚ
  lastAmount : ℚ
deriving DecidableEq, Repr

/-- One wake-up of `considerTrade` on a snapshot: net-long exit first, else
net-short exit, else the arb check with false-repeat suppression; `lastArb`
and `lastAmount` are updated only when an arb trade fires. -/
def considerStep (cfg : Config) (netPosition lastArb lastAmount : ℚ)
    (markets : List (Exchange × FilteredBook)) : StepResult :=
  if cfg.minNetPos ≤ netPosition then
    let bestBid := findBestBid cfg markets
    ⟨.exitSell bestBid (min netPosition bestBid.amount), lastArb, lastAmount⟩
  else if netPosition ≤ -cfg.minNetPos then
    let bestAsk := findBestAsk cfg markets
    ⟨.exitBuy bestAsk (min (-netPosition) bestAsk.amount), lastArb, lastAmount⟩
  else
    match findBestArb cfg markets with
    | (bestBid, bestAsk, found) =>
      if found then
        if shouldFire cfg lastArb lastAmount (bestBid.adjPrice - bestAsk.adjPrice)
            (min bestBid.amount bestAsk.amount) then
          ⟨.arbTrade bestBid bestAsk (min bestBid.amount bestAsk.amount)
              (bestBid.adjPrice - bestAsk.adjPrice),
            bestBid.adjPrice - bestAsk.adjPrice, min bestBid.amount bestAsk.amount⟩
        else ⟨.skip, lastArb, lastAmount⟩
      else ⟨.idle, lastArb, lastAmount⟩

/-- The snapshot construction at the top of `considerTrade`'s loop: keep
only filtered books whose source book is younger than one minute. -/
def buildSnapshot (now : ℚ) (received : List (Exchange × FilteredBook)) :
    List (Exchange × FilteredBook) :=
  received.filter fun p => decide (now - p.2.time < 60)

/-- In the hub's markets map each filtered book's sides carry the venue the
book came from (or no handle at all when the side is absent). -/
def keyedBooks (markets : List (Exchange × FilteredBook)) : Prop :=
  ∀ p ∈ markets, (p.2.bid.exg = none ∨ p.2.bid.exg = some p.1)
    ∧ (p.2.ask.exg = none ∨ p.2.ask.exg = some p.1)

lemma findBestBid_sound (cfg : Config) (markets : List (Exchange × FilteredBook))
    (hk : keyedBooks markets) (e : Exchange) :
    (findBestBid cfg markets).exg = some e →
      (findBestBid cfg markets).amount ≤ e.position + e.maxPos
        ∧ ∃ fb, (e, fb) ∈ markets := by
  have h := foldl_preserve
    (fun m : Market => m.exg = some e →
      m.amount ≤ e.position + e.maxPos ∧ ∃ fb, (e, fb) ∈ markets)
    (bestBidStep cfg) markets Market.zero
    (by intro hz; simp [Market.zero] at hz)
    (by
      intro b p hp hb
      intro hsome
      by_cases h1 : cfg.minOrder ≤ p.1.position + p.1.maxPos
      · by_cases h2 : b.adjPrice < p.2.bid.adjPrice
        · simp only [bestBidStep, if_pos h1, if_pos h2] at hsome ⊢
          rcases (hk p hp).1 with hnone | hkey
          · rw [hnone] at hsome; simp at hsome
          · rw [hkey] at hsome
            have heq : p.1 = e := Option.some_inj.mp hsome
            refine ⟨?_, p.2, by rw [← heq]; exact hp⟩
            rw [← heq]
            exact min_le_right _ _
        · simp only [bestBidStep, if_pos h1, if_neg h2] at hsome ⊢
          exact hb hsome
      · simp only [bestBidStep, if_neg h1] at hsome ⊢
        exact hb hsome)
  exact h

lemma findBestAsk_sound (cfg : Config) (markets : List (Exchange × FilteredBook))
    (hk : keyedBooks markets) (e : Exchange) :
    (findBestAsk cfg markets).exg = some e →
      (findBestAsk cfg markets).amount ≤ e.maxPos - e.position
        ∧ ∃ fb, (e, fb) ∈ markets := by
  have h := foldl_preserve
    (fun m : Market => m.exg = some e →
      m.amount ≤ e.maxPos - e.position ∧ ∃ fb, (e, fb) ∈ markets)
    (bestAskStep cfg) markets { Market.zero with adjPrice := maxFloat64 }
    (by intro hz; simp [Market.zero] at hz)
    (by
      intro b p hp hb
      intro hsome
      by_cases h1 : cfg.minOrder ≤ p.1.maxPos - p.1.position
      · by_cases h2 : p.2.ask.adjPrice < b.adjPrice
        · simp only [bestAskStep, if_pos h1, if_pos h2] at hsome ⊢
          rcases (hk p hp).2 with hnone | hkey
          · rw [hnone] at hsome; simp at hsome
          · rw [hkey] at hsome
            have heq : p.1 = e := Option.some_inj.mp hsome
            refine ⟨?_, p.2, by rw [← heq]; exact hp⟩
            rw [← heq]
            exact min_le_right _ _
        · simp only [bestAskStep, if_pos h1, if_neg h2] at hsome ⊢
          exact hb hsome
      · simp only [bestAskStep, if_neg h1] at hsome ⊢
        exact hb hsome)
  exact h

lemma arbAcc_preserve (cfg : Config) (markets : List (Exchange × FilteredBook))
    (hk : keyedBooks markets) :
    ∀ acc : ArbAcc,
      ((∀ e, acc.bestBid.exg = some e →
          acc.bestBid.amount ≤ e.position + e.maxPos ∧ ∃ fb, (e, fb) ∈ markets)
        ∧ (∀ e, acc.bestAsk.exg = some e →
          acc.bestAsk.amount ≤ e.maxPos - e.position ∧ ∃ fb, (e, fb) ∈ markets)) →
      ∀ p1 ∈ markets,
      ((∀ e, (arbStep cfg markets acc p1).bestBid.exg = some e →
          (arbStep cfg markets acc p1).bestBid.amount ≤ e.position + e.maxPos
            ∧ ∃ fb, (e, fb) ∈ markets)
        ∧ (∀ e, (arbStep cfg markets acc p1).bestAsk.exg = some e →
          (arbStep cfg markets acc p1).bestAsk.amount ≤ e.maxPos - e.position
            ∧ ∃ fb, (e, fb) ∈ markets)) := by
  intro acc hacc p1 hp1
  by_cases h1 : cfg.minOrder ≤ p1.1.position + p1.1.maxPos
  · rw [arbStep, if_pos h1]
    refine foldl_preserve
      (fun acc : ArbAcc =>
        (∀ e, acc.bestBid.exg = some e →
          acc.bestBid.amount ≤ e.position + e.maxPos ∧ ∃ fb, (e, fb) ∈ markets)
        ∧ (∀ e, acc.bestAsk.exg = some e →
          acc.bestAsk.amount ≤ e.maxPos - e.position ∧ ∃ fb, (e, fb) ∈ markets))
      (arbInner cfg p1) markets acc hacc ?_
    intro b p2 hp2 hb
    by_cases h2 : cfg.minOrder ≤ p2.1.maxPos - p2.1.position
    · by_cases h3 : b.bestOpp ≤
          p1.2.bid.adjPrice - p2.2.ask.adjPrice - calcNeededArb cfg p2.1 p1.1
      · constructor
        · intro e hsome
          simp only [arbInner, if_pos h2, if_pos h3] at hsome ⊢
          rcases (hk p1 hp1).1 with hnone | hkey
          · rw [hnone] at hsome; simp at hsome
          · rw [hkey] at hsome
            have heq : p1.1 = e := Option.some_inj.mp hsome
            refine ⟨?_, p1.2, by rw [← heq]; exact hp1⟩
            rw [← heq]
            exact min_le_right _ _
        · intro e hsome
          simp only [arbInner, if_pos h2, if_pos h3] at hsome ⊢
          rcases (hk p2 hp2).2 with hnone | hkey
          · rw [hnone] at hsome; simp at hsome
          · rw [hkey] at hsome
            have heq : p2.1 = e := Option.some_inj.mp hsome
            refine ⟨?_, p2.2, by rw [← heq]; exact hp2⟩
            rw [← heq]
            exact min_le_right _ _
      · simp only [arbInner, if_pos h2, if_neg h3]
        exact hb
    · simp only [arbInner, if_neg h2]
      exact hb
  · rw [arbStep, if_neg h1]
    exact hacc

lemma findBestArb_sound (cfg : Config) (markets : List (Exchange × FilteredBook))
    (hk : keyedBooks markets) :
    (∀ e, (findBestArb cfg markets).1.exg = some e →
      (findBestArb cfg markets).1.amount ≤ e.position + e.maxPos
        ∧ ∃ fb, (e, fb) ∈ markets)
    ∧ (∀ e, (findBestArb cfg markets).2.1.exg = some e →
      (findBestArb cfg markets).2.1.amount ≤ e.maxPos - e.position
        ∧ ∃ fb, (e, fb) ∈ markets) := by
  have h := foldl_preserve
    (fun acc : ArbAcc =>
      (∀ e, acc.bestBid.exg = some e →
        acc.bestBid.amount ≤ e.position + e.maxPos ∧ ∃ fb, (e, fb) ∈ markets)
      ∧ (∀ e, acc.bestAsk.exg = some e →
        acc.bestAsk.amount ≤ e.maxPos - e.position ∧ ∃ fb, (e, fb) ∈ markets))
    (arbStep cfg markets) markets ⟨Market.zero, Market.zero, 0, false⟩
    (by
      constructor
      · intro e hz; simp [Market.zero] at hz
      · intro e hz; simp [Market.zero] at hz)
    (fun acc p1 hp1 hacc => arbAcc_preserve cfg markets hk acc hacc p1 hp1)
  exact h

lemma considerStep_long (cfg : Config) (netPos la lm : ℚ)
    (markets : List (Exchange × FilteredBook)) (h1 : cfg.minNetPos ≤ netPos) :
    considerStep cfg netPos la lm markets =
      ⟨.exitSell (findBestBid cfg markets)
        (min netPos (findBestBid cfg markets).amount), la, lm⟩ := by
  rw [considerStep, if_pos h1]

lemma considerStep_short (cfg : Config) (netPos la lm : ℚ)
    (markets : List (Exchange × FilteredBook)) (h1 : ¬cfg.minNetPos ≤ netPos)
    (h2 : netPos ≤ -cfg.minNetPos) :
    considerStep cfg netPos la lm markets =
      ⟨.exitBuy (findBestAsk cfg markets)
        (min (-netPos) (findBestAsk cfg markets).amount), la, lm⟩ := by
  rw [considerStep, if_neg h1, if_pos h2]

lemma considerStep_arb (cfg : Config) (netPos la lm : ℚ)
    (markets : List (Exchange × FilteredBook)) (h1 : ¬cfg.minNetPos ≤ netPos)
    (h2 : ¬netPos ≤ -cfg.minNetPos) :
    considerStep cfg netPos la lm markets =
      if (findBestArb cfg markets).2.2 then
        if shouldFire cfg la lm
            ((findBestArb cfg markets).1.adjPrice - (findBestArb cfg markets).2.1.adjPrice)
            (min (findBestArb cfg markets).1.amount (findBestArb cfg markets).2.1.amount) then
          ⟨.arbTrade (findBestArb cfg markets).1 (findBestArb cfg markets).2.1
              (min (findBestArb cfg markets).1.amount (findBestArb cfg markets).2.1.amount)
              ((findBestArb cfg markets).1.adjPrice - (findBestArb cfg markets).2.1.adjPrice),
            (findBestArb cfg markets).1.adjPrice - (findBestArb cfg markets).2.1.adjPrice,
            min (findBestArb cfg markets).1.amount (findBestArb cfg markets).2.1.amount⟩
        else ⟨.skip, la, lm⟩
      else ⟨.idle, la, lm⟩ := by
  rw [considerStep, if_neg h1, if_neg h2]

lemma sell_fill_preserves (e : Exchange) (fill : ℚ) (hpos : |e.position| ≤ e.maxPos)
    (h0 : 0 ≤ fill) (hcap : fill ≤ e.position + e.maxPos) :
    |(fillOrKillUpdate e "sell" fill).1.position| ≤ e.maxPos := by
  have hview : (fillOrKillUpdate e "sell" fill).1.position = e.position - fill := by
    simp [fillOrKillUpdate]
  rw [hview, abs_le] at *
  rcases hpos with ⟨hlo, hhi⟩
  constructor <;> linarith

lemma buy_fill_preserves (e : Exchange) (fill : ℚ) (hpos : |e.position| ≤ e.maxPos)
    (h0 : 0 ≤ fill) (hcap : fill ≤ e.maxPos - e.position)
    (hf0 : 0 ≤ e.fee) (hf1 : e.fee ≤ 1) :
    |(fillOrKillUpdate e "buy" fill).1.position| ≤ e.maxPos := by
  have hview : (fillOrKillUpdate e "buy" fill).1.position =
      e.position + (if e.hasCryptoFee then fill * (1 - e.fee) else fill) := by
    simp [fillOrKillUpdate]
  rw [hview, abs_le] at *
  rcases hpos with ⟨hlo, hhi⟩
  cases hcf : e.hasCryptoFee
  · rw [if_neg (by simp [hcf])]
    constructor <;> linarith
  · rw [if_pos (by simp [hcf])]
    have hd0 : 0 ≤ fill * (1 - e.fee) := mul_nonneg h0 (by linarith)
    have hdle : fill * (1 - e.fee) ≤ fill := by nlinarith
    constructor <;> linarith

/-- C6: the finders only request what the selected venue can absorb — the
best bid's amount is capped by `position + max_position`, the best ask's by
`max_position - position`, both sides of the best arb likewise; the amount
`considerTrade` actually sends never exceeds the selected market's amount;
and applying any fill of at most that capacity (with the crypto-fee
reduction on buys) keeps `|position| ≤ max_position`. -/
theorem position_cap_invariant :
    (∀ (cfg : Config) (markets : List (Exchange × FilteredBook)), keyedBooks markets →
      ∀ e : Exchange,
        ((findBestBid cfg markets).exg = some e →
          (findBestBid cfg markets).amount ≤ e.position + e.maxPos)
        ∧ ((findBestAsk cfg markets).exg = some e →
          (findBestAsk cfg markets).amount ≤ e.maxPos - e.position)
        ∧ ((findBestArb cfg markets).1.exg = some e →
          (findBestArb cfg markets).1.amount ≤ e.position + e.maxPos)
        ∧ ((findBestArb cfg markets).2.1.exg = some e →
          (findBestArb cfg markets).2.1.amount ≤ e.maxPos - e.position))
    ∧ (∀ (cfg : Config) (netPos la lm : ℚ) (markets : List (Exchange × FilteredBook))
        (m : Market) (amt : ℚ),
        ((considerStep cfg netPos la lm markets).decision = Decision.exitSell m amt →
          amt ≤ m.amount)
        ∧ ((considerStep cfg netPos la lm markets).decision = Decision.exitBuy m amt →
          amt ≤ m.amount))
    ∧ (∀ (cfg : Config) (netPos la lm : ℚ) (markets : List (Exchange × FilteredBook))
        (bid ask : Market) (amt arb : ℚ),
        (considerStep cfg netPos la lm markets).decision
            = Decision.arbTrade bid ask amt arb →
          amt ≤ bid.amount ∧ amt ≤ ask.amount)
    ∧ (∀ (e : Exchange) (fill : ℚ), |e.position| ≤ e.maxPos → 0 ≤ fill →
        fill ≤ e.position + e.maxPos →
        |(fillOrKillUpdate e "sell" fill).1.position| ≤ e.maxPos)
    ∧ (∀ (e : Exchange) (fill : ℚ), |e.position| ≤ e.maxPos → 0 ≤ fill →
        fill ≤ e.maxPos - e.position → 0 ≤ e.fee → e.fee ≤ 1 →
        |(fillOrKillUpdate e "buy" fill).1.position| ≤ e.maxPos) := by
  refine ⟨?_, ?_, ?_, sell_fill_preserves, buy_fill_preserves⟩
  · intro cfg markets hk e
    exact ⟨fun h => (findBestBid_sound cfg markets hk e h).1,
      fun h => (findBestAsk_sound cfg markets hk e h).1,
      fun h => ((findBestArb_sound cfg markets hk).1 e h).1,
      fun h => ((findBestArb_sound cfg markets hk).2 e h).1⟩
  · intro cfg netPos la lm markets m amt
    constructor <;> intro h
    · by_cases h1 : cfg.minNetPos ≤ netPos
      · rw [considerStep_long cfg netPos la lm markets h1] at h
        simp only [Decision.exitSell.injEq] at h
        rcases h with ⟨rfl, rfl⟩
        exact min_le_right _ _
      · by_cases h2 : netPos ≤ -cfg.minNetPos
        · rw [considerStep_short cfg netPos la lm markets h1 h2] at h
          simp at h
        · rw [considerStep_arb cfg netPos la lm markets h1 h2] at h
          split_ifs at h
    · by_cases h1 : cfg.minNetPos ≤ netPos
      · rw [considerStep_long cfg netPos la lm markets h1] at h
        simp at h
      · by_cases h2 : netPos ≤ -cfg.minNetPos
        · rw [considerStep_short cfg netPos la lm markets h1 h2] at h
          simp only [Decision.exitBuy.injEq] at h
          rcases h with ⟨rfl, rfl⟩
          exact min_le_right _ _
        · rw [considerStep_arb cfg netPos la lm markets h1 h2] at h
          split_ifs at h
  · intro cfg netPos la lm markets bid ask amt arb h
    by_cases h1 : cfg.minNetPos ≤ netPos
    · rw [considerStep_long cfg netPos la lm markets h1] at h
      simp at h
    · by_cases h2 : netPos ≤ -cfg.minNetPos
      · rw [considerStep_short cfg netPos la lm markets h1 h2] at h
        simp at h
      · rw [considerStep_arb cfg netPos la lm markets h1 h2] at h
        split_ifs at h
        · simp only [Decision.arbTrade.injEq] at h
          rcases h with ⟨rfl, rfl, rfl, rfl⟩
          exact ⟨min_le_left _ _, min_le_right _ _⟩

/-- Witness for C6: a buy fill of 1 on the crypto-fee venue keeps the
position within its cap. -/
theorem position_cap_invariant_w :
    |(fillOrKillUpdate venueCF "buy" 1).1.position| ≤ venueCF.maxPos :=
  position_cap_invariant.2.2.2.2 venueCF 1
    (by norm_num [venueCF]) (by norm_num) (by norm_num [venueCF])
    (by norm_num [venueCF]) (by norm_num [venueCF])

/-- Configuration for the repeat-filter boundary counterexample. -/
def cfgRepeat : Config :=
  { maxArb := 0, minArb := 0, fxPremium := 0, minNetPos := 0, minOrder := 0, maxOrder := 1 }

/-- C7 counterexample: at `arb - last_arb` of exactly `1e-6` (amounts equal,
amount far from `max_order`) the code skips, while the claimed condition —
both differences strictly below `1e-6` — does not hold, so the claimed
"skipped exactly when" equivalence fails at this input. -/
theorem false_repeat_cex :
    shouldFire cfgRepeat 0 0 (1 / 1000000) 0 = false
      ∧ ¬((|(1 : ℚ) / 1000000 - 0| < 1 / 1000000) ∧ (|(0 : ℚ) - 0| < 1 / 1000000)
          ∧ ¬(|(0 : ℚ) - cfgRepeat.maxOrder| < 1 / 1000000)) := by
  have ha : |(1 : ℚ) / 1000000 - 0| = 1 / 1000000 := by
    rw [sub_zero]; exact abs_of_nonneg (by norm_num)
  have hb : |(0 : ℚ) - 0| = 0 := by rw [sub_zero, abs_zero]
  have hc : |(0 : ℚ) - cfgRepeat.maxOrder| = 1 := by
    rw [show cfgRepeat.maxOrder = 1 from rfl, zero_sub, abs_neg, abs_one]
  constructor
  · simp only [shouldFire, Bool.or_eq_false_iff, decide_eq_false_iff_not, not_lt, ha, hb, hc]
    exact ⟨⟨le_refl _, by norm_num⟩, by norm_num⟩
  · rintro ⟨h1, -, -⟩
    rw [ha] at h1
    exact lt_irrefl _ h1

/-- C7 amended: a candidate is skipped exactly when the arb and the amount
each differ from the last trade by at most `1e-6` and the amount is at
least `1e-6` away from `max_order`; immediately after a fire the identical
candidate fires again exactly when its amount is within `1e-6` of
`max_order`; and a skip leaves `last_arb` and `last_amount` unchanged. -/
theorem false_repeat_suppression :
    (∀ (cfg : Config) (la lm a m : ℚ),
      shouldFire cfg la lm a m = false ↔
        (|a - la| ≤ 1 / 1000000 ∧ |m - lm| ≤ 1 / 1000000
          ∧ 1 / 1000000 ≤ |m - cfg.maxOrder|))
    ∧ (∀ (cfg : Config) (a m : ℚ),
        shouldFire cfg a m a m = true ↔ |m - cfg.maxOrder| < 1 / 1000000)
    ∧ (∀ (cfg : Config) (netPos la lm : ℚ) (markets : List (Exchange × FilteredBook)),
        (considerStep cfg netPos la lm markets).decision = Decision.skip →
          (considerStep cfg netPos la lm markets).lastArb = la
          ∧ (considerStep cfg netPos la lm markets).lastAmount = lm) := by
  refine ⟨?_, ?_, ?_⟩
  · intro cfg la lm a m
    simp only [shouldFire, Bool.or_eq_false_iff, decide_eq_false_iff_not, not_lt]
    tauto
  · intro cfg a m
    simp only [shouldFire, Bool.or_eq_true, decide_eq_true_eq]
    constructor
    · rintro ((h | h) | h)
      · rw [sub_self, abs_zero] at h; exact absurd h (by norm_num)
      · rw [sub_self, abs_zero] at h; exact absurd h (by norm_num)
      · exact h
    · intro h
      exact Or.inr h
  · intro cfg netPos la lm markets h
    by_cases h1 : cfg.minNetPos ≤ netPos
    · rw [considerStep_long cfg netPos la lm markets h1]
      exact ⟨rfl, rfl⟩
    · by_cases h2 : netPos ≤ -cfg.minNetPos
      · rw [considerStep_short cfg netPos la lm markets h1 h2]
        exact ⟨rfl, rfl⟩
      · rw [considerStep_arb cfg netPos la lm markets h1 h2] at h ⊢
        split_ifs at h ⊢
        all_goals exact ⟨rfl, rfl⟩

/-- A venue for the repeat-suppression witness. -/
def venue7 : Exchange :=
  { id := 1, priority := 1, fee := 0, maxPos := 10, currencyCode := 0,
    hasCryptoFee := false, position := 0 }

/-- A filtered book offering a 1-point arb of size 2 at `venue7`. -/
def fb7 : FilteredBook :=
  { bid := { exg := some venue7, orderPrice := 5, amount := 2, adjPrice := 5 },
    ask := { exg := some venue7, orderPrice := 4, amount := 2, adjPrice := 4 },
    time := 0 }

/-- Snapshot with the single venue. -/
def mkts7 : List (Exchange × FilteredBook) := [(venue7, fb7)]

/-- Configuration for the repeat-suppression witness. -/
def cfg7 : Config :=
  { maxArb := 0, minArb := 0, fxPremium := 0, minNetPos := 1, minOrder := 1, maxOrder := 100 }

/-- Witness for the amended C7: the arb candidate `(1, 2)` equal to the last
trade and away from `max_order` is skipped, leaving the trackers unchanged. -/
theorem false_repeat_suppression_w :
    (considerStep cfg7 0 1 2 mkts7).lastArb = 1
      ∧ (considerStep cfg7 0 1 2 mkts7).lastAmount = 2 := by
  have h1 : ¬cfg7.minNetPos ≤ (0 : ℚ) := by norm_num [cfg7]
  have h2 : ¬(0 : ℚ) ≤ -cfg7.minNetPos := by norm_num [cfg7]
  have harb : findBestArb cfg7 mkts7 = (fb7.bid, fb7.ask, true) := by
    norm_num [findBestArb, mkts7, arbStep, arbInner, cfg7, venue7, fb7, calcNeededArb,
      min_def, Market.zero]
  have hsf : shouldFire cfg7 1 2 1 2 = false := by
    simp only [shouldFire, Bool.or_eq_false_iff, decide_eq_false_iff_not, not_lt]
    refine ⟨⟨?_, ?_⟩, ?_⟩
    · rw [sub_self, abs_zero]; norm_num
    · rw [sub_self, abs_zero]; norm_num
    · rw [show |(2 : ℚ) - cfg7.maxOrder| = 98 by
        rw [show cfg7.maxOrder = (100 : ℚ) from rfl, abs_of_nonpos (by norm_num)]
        norm_num]
      norm_num
  have hdec : (considerStep cfg7 0 1 2 mkts7).decision = Decision.skip := by
    rw [considerStep_arb cfg7 0 1 2 mkts7 h1 h2, harb]
    rw [show ((fb7.bid, fb7.ask, true) : Market × Market × Bool).1.adjPrice
        - (fb7.bid, fb7.ask, true).2.1.adjPrice = 1 by norm_num [fb7]]
    rw [show min ((fb7.bid, fb7.ask, true) : Market × Market × Bool).1.amount
        (fb7.bid, fb7.ask, true).2.1.amount = 2 by norm_num [fb7]]
    rw [hsf]
    rfl
  exact false_repeat_suppression.2.2 cfg7 0 1 2 mkts7 hdec

/-- C8: a snapshot only holds filtered books whose source book is younger
than 60 seconds; a book older than 60 seconds is excluded; and any venue one
of the finders selects from a snapshot has a fresh book in that snapshot,
so no trade is made against a stale venue on that wake-up. -/
theorem staleness_gate :
    (∀ (now : ℚ) (rcv : List (Exchange × FilteredBook)) (p : Exchange × FilteredBook),
      p ∈ buildSnapshot now rcv → now - p.2.time < 60)
    ∧ (∀ (now : ℚ) (rcv : List (Exchange × FilteredBook)) (p : Exchange × FilteredBook),
      p ∈ rcv → 60 < now - p.2.time → p ∉ buildSnapshot now rcv)
    ∧ (∀ (cfg : Config) (now : ℚ) (rcv : List (Exchange × FilteredBook)),
      keyedBooks (buildSnapshot now rcv) →
      ∀ e : Exchange,
        ((findBestBid cfg (buildSnapshot now rcv)).exg = some e →
          ∃ fb, (e, fb) ∈ buildSnapshot now rcv ∧ now - fb.time < 60)
        ∧ ((findBestAsk cfg (buildSnapshot now rcv)).exg = some e →
          ∃ fb, (e, fb) ∈ buildSnapshot now rcv ∧ now - fb.time < 60)
        ∧ ((findBestArb cfg (buildSnapshot now rcv)).1.exg = some e →
          ∃ fb, (e, fb) ∈ buildSnapshot now rcv ∧ now - fb.time < 60)
        ∧ ((findBestArb cfg (buildSnapshot now rcv)).2.1.exg = some e →
          ∃ fb, (e, fb) ∈ buildSnapshot now rcv ∧ now - fb.time < 60)) := by
  have hfresh : ∀ (now : ℚ) (rcv : List (Exchange × FilteredBook))
      (p : Exchange × FilteredBook),
      p ∈ buildSnapshot now rcv → now - p.2.time < 60 := by
    intro now rcv p hp
    rw [buildSnapshot, List.mem_filter] at hp
    exact of_decide_eq_true hp.2
  refine ⟨hfresh, ?_, ?_⟩
  · intro now rcv p hp hold hmem
    exact absurd (hfresh now rcv p hmem) (by linarith)
  · intro cfg now rcv hk e
    refine ⟨?_, ?_, ?_, ?_⟩ <;> intro hsel
    · obtain ⟨-, fb, hfb⟩ := findBestBid_sound cfg _ hk e hsel
      exact ⟨fb, hfb, hfresh now rcv (e, fb) hfb⟩
    · obtain ⟨-, fb, hfb⟩ := findBestAsk_sound cfg _ hk e hsel
      exact ⟨fb, hfb, hfresh now rcv (e, fb) hfb⟩
    · obtain ⟨-, fb, hfb⟩ := (findBestArb_sound cfg _ hk).1 e hsel
      exact ⟨fb, hfb, hfresh now rcv (e, fb) hfb⟩
    · obtain ⟨-, fb, hfb⟩ := (findBestArb_sound cfg _ hk).2 e hsel
      exact ⟨fb, hfb, hfresh now rcv (e, fb) hfb⟩

/-- A fresh filtered book (50 seconds old at time 100). -/
def fbFresh : FilteredBook := { bid := Market.zero, ask := Market.zero, time := 50 }

/-- A stale filtered book (70 seconds old at time 100). -/
def fbStale : FilteredBook := { bid := Market.zero, ask := Market.zero, time := 30 }

/-- The received books for the staleness witness. -/
def rcv8 : List (Exchange × FilteredBook) := [(venue7, fbFresh), (venueW, fbStale)]

/-- Witness for C8 at time 100: the 50s-old book is in the snapshot and
fresh; the 70s-old book is excluded. -/
theorem staleness_gate_w :
    (100 - ((venue7, fbFresh) : Exchange × FilteredBook).2.time < 60)
      ∧ ((venueW, fbStale) : Exchange × FilteredBook) ∉ buildSnapshot 100 rcv8 := by
  constructor
  · refine staleness_gate.1 100 rcv8 (venue7, fbFresh) ?_
    rw [buildSnapshot, List.mem_filter]
    refine ⟨by simp [rcv8], ?_⟩
    rw [decide_eq_true_eq]
    norm_num [fbFresh]
  · refine staleness_gate.2.1 100 rcv8 (venueW, fbStale) (by simp [rcv8]) ?_
    norm_num [fbStale]

lemma findBestBid_none (cfg : Config) (markets : List (Exchange × FilteredBook))
    (h : ∀ p ∈ markets, p.1.position + p.1.maxPos < cfg.minOrder) :
    findBestBid cfg markets = Market.zero := by
  refine foldl_preserve (fun m => m = Market.zero) (bestBidStep cfg) markets
    Market.zero rfl ?_
  intro b p hp hb
  rw [bestBidStep, if_neg (not_le.mpr (h p hp))]
  exact hb

lemma findBestAsk_none (cfg : Config) (markets : List (Exchange × FilteredBook))
    (h : ∀ p ∈ markets, p.1.maxPos - p.1.position < cfg.minOrder) :
    findBestAsk cfg markets = { Market.zero with adjPrice := maxFloat64 } := by
  refine foldl_preserve (fun m => m = { Market.zero with adjPrice := maxFloat64 })
    (bestAskStep cfg) markets _ rfl ?_
  intro b p hp hb
  rw [bestAskStep, if_neg (not_le.mpr (h p hp))]
  exact hb

/-- C10: when no venue can sell at least `min_order`, `findBestBid` is the
zero market (no handle, zero amount, price, adjusted price); when no venue
can buy, `findBestAsk` is the zero market with adjusted price `MaxFloat64`;
and the net-position exit paths do not guard against this: they decide to
send a fill-or-kill on the venue-less market with amount
`min(|net_position|, 0) = 0`. -/
theorem degenerate_exit :
    (∀ (cfg : Config) (markets : List (Exchange × FilteredBook)),
      (∀ p ∈ markets, p.1.position + p.1.maxPos < cfg.minOrder) →
      findBestBid cfg markets = Market.zero)
    ∧ (∀ (cfg : Config) (markets : List (Exchange × FilteredBook)),
      (∀ p ∈ markets, p.1.maxPos - p.1.position < cfg.minOrder) →
      findBestAsk cfg markets = { Market.zero with adjPrice := maxFloat64 })
    ∧ (∀ (cfg : Config) (netPos la lm : ℚ) (markets : List (Exchange × FilteredBook)),
      (∀ p ∈ markets, p.1.position + p.1.maxPos < cfg.minOrder) →
      cfg.minNetPos ≤ netPos → 0 ≤ netPos →
      considerStep cfg netPos la lm markets = ⟨.exitSell Market.zero 0, la, lm⟩)
    ∧ (∀ (cfg : Config) (netPos la lm : ℚ) (markets : List (Exchange × FilteredBook)),
      (∀ p ∈ markets, p.1.maxPos - p.1.position < cfg.minOrder) →
      ¬cfg.minNetPos ≤ netPos → netPos ≤ -cfg.minNetPos → netPos ≤ 0 →
      considerStep cfg netPos la lm markets =
        ⟨.exitBuy { Market.zero with adjPrice := maxFloat64 } 0, la, lm⟩) := by
  refine ⟨findBestBid_none, findBestAsk_none, ?_, ?_⟩
  · intro cfg netPos la lm markets h hlong h0
    rw [considerStep_long cfg netPos la lm markets hlong, findBestBid_none cfg markets h]
    have hamt : min netPos Market.zero.amount = 0 := by
      rw [show Market.zero.amount = 0 from rfl]
      exact min_eq_right h0
    rw [hamt]
  · intro cfg netPos la lm markets h hnotlong hshort h0
    rw [considerStep_short cfg netPos la lm markets hnotlong hshort,
      findBestAsk_none cfg markets h]
    have hamt : min (-netPos) ({ Market.zero with adjPrice := maxFloat64 } : Market).amount
        = 0 := by
      rw [show ({ Market.zero with adjPrice := maxFloat64 } : Market).amount = 0 from rfl]
      exact min_eq_right (by linarith)
    rw [hamt]

/-- A venue with a zero-size position cap, so it can neither buy nor sell. -/
def venue10 : Exchange :=
  { id := 2, priority := 1, fee := 0, maxPos := 0, currencyCode := 0,
    hasCryptoFee := false, position := 0 }

/-- Snapshot for the degenerate-exit witness. -/
def mkts10 : List (Exchange × FilteredBook) := [(venue10, fb7)]

/-- Witness for C10: net long 2 with no venue able to sell produces an exit
decision on the venue-less zero market with amount 0. -/
theorem degenerate_exit_w :
    considerStep cfg7 2 0 0 mkts10 = ⟨.exitSell Market.zero 0, 0, 0⟩ :=
  degenerate_exit.2.2.1 cfg7 2 0 0 mkts10
    (by
      intro p hp
      simp only [mkts10, List.mem_singleton] at hp
      rw [hp]
      norm_num [venue10, cfg7])
    (by norm_num [cfg7]) (by norm_num)

end Bitfx
